import Mathlib

/-!
Verification of the `allow-until` procedural-macro crate (src/lib.rs).

The development shallowly embeds the crate's token-stream processing:

* `TT` models `proc_macro::TokenTree` (identifier, punctuation, literal,
  group); spans are opaque identifiers (`Span := Nat`), and `Span::call_site()`
  is the distinguished span `callSite`.
* The external collaborators are passed in as parameters, exactly as the
  crate consumes them opaquely: the `semver` crate is a `SemverLib` record
  (`VersionReq::parse`, `Version::parse`, `VersionReq::matches`, `Display`),
  the `CARGO_PKG_VERSION` environment lookup is an `Option String`, and
  `Span::join` is a function `Span → Span → Option Span`.
* `parse_arguments`, `emit_error_version_match`, `recurse_find_attr`,
  `allow_until` and `allow_until_derive` are direct transcriptions of the
  functions of the same names in src/lib.rs.  Side effects are made explicit:
  diagnostic emission becomes an event trace, the `unwrap`/`expect` panics
  become the `Except.error` branch of the result.
-/

namespace AllowUntil

/-- Opaque source-location handle (`proc_macro::Span`), modelled as an id. -/
abbrev Span := Nat

/-- The distinguished `Span::call_site()` span. -/
def callSite : Span := 0

/-- `proc_macro::TokenTree`: the four token shapes the crate distinguishes.
A literal carries its textual form (`Literal::to_string`), a group carries
its inner token sequence (`Group::stream`); delimiters are never inspected
by src/lib.rs and are omitted. -/
inductive TT where
  | ident (s : String) (sp : Span)
  | punct (c : Char) (sp : Span)
  | lit (s : String) (sp : Span)
  | group (ts : List TT) (sp : Span)

/-- The span carried by a token (`TokenTree::span`). -/
def TT.span : TT → Span
  | .ident _ sp => sp
  | .punct _ sp => sp
  | .lit _ sp => sp
  | .group _ sp => sp

/-- A `proc_macro::Diagnostic` at error level: anchor span, primary message,
optional help note (src/lib.rs builds diagnostics with `.error` and at most
one `.help`). -/
structure Diagnostic where
  span : Span
  message : String
  help : Option String
deriving DecidableEq

/-- The opaque `semver` crate interface consumed by src/lib.rs:
`VersionReq::parse`, `Version::parse`, `VersionReq::matches`, and the
`Display` renderings used in `format!`. -/
structure SemverLib (Req Ver : Type) where
  parseReq : String → Option Req
  parseVer : String → Option Ver
  vermatches : Req → Ver → Bool
  reqStr : Req → String
  verStr : Ver → String

/-- `struct Args` of src/lib.rs lines 31-34. -/
structure Args (Req : Type) where
  version : Req
  reason : Option String
deriving DecidableEq

/-- Model of `lit_str.get(1..lit_str.len() - 1)` (src/lib.rs lines 77-79 and
88-90): the literal's textual form with its first and last character removed;
`none` when the text is too short for both to exist. -/
def litUnquote (s : String) : Option String :=
  if 2 ≤ s.length then some ((s.drop 1).dropRight 1) else none

/-- The `match &ident.to_string()[..]` dispatch of src/lib.rs lines 73-100:
given the pair's key and the literal's text and span, update the
`(version, reason)` accumulator or fail with the diagnostic the code builds. -/
def dispatchPair {Req Ver : Type} (L : SemverLib Req Ver) (name litStr : String)
    (litSp : Span) (version : Option Req) (reason : Option String) :
    Except Diagnostic (Option Req × Option String) :=
  if name == "version" then
    match litUnquote litStr with
    | none => .error ⟨litSp, "expected string literal", none⟩
    | some v =>
      match L.parseReq v with
      | none => .error ⟨litSp, "invalid semver version", none⟩
      | some req => .ok (some req, reason)
  else if name == "reason" then
    match litUnquote litStr with
    | none => .error ⟨litSp, "expected string literal", none⟩
    | some v => .ok (version, some v)
  else
    .error ⟨litSp, "unknown argument", some "valid arguments are `version` and `reason`"⟩

/-- The post-loop check of src/lib.rs lines 116-123: a missing `version` key
is an error anchored at the call site, otherwise the accumulated `Args`. -/
def finishArgs {Req : Type} (version : Option Req) (reason : Option String) :
    Except Diagnostic (Args Req) :=
  match version with
  | none => .error ⟨callSite, "missing required `version` argument", none⟩
  | some v => .ok ⟨v, reason⟩

/-- The `while let Some(tok) = toks.next()` loop of `parse_arguments`
(src/lib.rs lines 42-114) with the `version`/`reason` accumulator made
explicit: ident, `=`, literal, dispatch, then peek for a separating comma. -/
def parseArgsLoop {Req Ver : Type} (L : SemverLib Req Ver) :
    List TT → Option Req → Option String → Except Diagnostic (Args Req)
  | [], version, reason => finishArgs version reason
  | .ident name _ :: rest, version, reason =>
    (match rest with
    | [] => .error ⟨callSite, "unexpected end of tokens", some "expected `=`"⟩
    | .punct c psp :: rest2 =>
      if c == '=' then
        match rest2 with
        | [] => .error ⟨callSite, "unexpected end of tokens", some "expected literal"⟩
        | .lit litStr litSp :: rest3 =>
          (match dispatchPair L name litStr litSp version reason with
          | .error e => .error e
          | .ok (version2, reason2) =>
            match rest3 with
            | [] => finishArgs version2 reason2
            | .punct c2 sp2 :: rest4 =>
              if c2 == ',' then parseArgsLoop L rest4 version2 reason2
              else .error ⟨sp2, "unexpected token", some "expected end of tokens or `,`"⟩
            | t :: _ => .error ⟨t.span, "unexpected token", some "expected end of tokens or `,`"⟩)
        | t :: _ => .error ⟨t.span, "expected literal", none⟩
      else .error ⟨psp, "expected `=`", none⟩
    | t :: _ => .error ⟨t.span, "expected `=`", none⟩)
  | t :: _, _, _ =>
    .error ⟨t.span, "expected ident", some "valid arguments are `version` and `reason`"⟩

/-- `fn parse_arguments` (src/lib.rs lines 36-124). -/
def parse_arguments {Req Ver : Type} (L : SemverLib Req Ver) (args : List TT) :
    Except Diagnostic (Args Req) :=
  parseArgsLoop L args none none

/-- Outcome of the Version Gate: nothing, one emitted diagnostic, or the
`expect("invalid cargo semver ver")` panic. -/
inductive GateResult where
  | silent
  | emitted (d : Diagnostic)
  | panicked (msg : String)
deriving DecidableEq

/-- `fn emit_error_version_match` (src/lib.rs lines 126-138); `env` is the
value of the `CARGO_PKG_VERSION` environment lookup. -/
def emit_error_version_match {Req Ver : Type} (L : SemverLib Req Ver)
    (env : Option String) (pred : Req) (reason : Option String) (at_ : Span) :
    GateResult :=
  match env with
  | none => .silent
  | some pkgVer =>
    match L.parseVer pkgVer with
    | none => .panicked "invalid cargo semver ver"
    | some version =>
      if L.vermatches pred version then
        .emitted ⟨at_,
          (match reason with
           | some r =>
             r ++ " (version " ++ L.verStr version ++ " matches " ++ L.reqStr pred ++ ")"
           | none =>
             "item not allowed! (version " ++ L.verStr version ++ " matches "
               ++ L.reqStr pred ++ ")"),
          none⟩
      else .silent

/-- One observable step of the derive-style traversal: a parse-error
diagnostic emission (src/lib.rs line 157), or a run of the Version Gate at a
located occurrence with its arguments, anchor span and outcome. -/
inductive WEvent (Req : Type) where
  | parseErr (d : Diagnostic)
  | gate (pred : Req) (reason : Option String) (sp : Span) (res : GateResult)

/-- The token-sequence loop of `fn recurse_find_attr` (src/lib.rs lines
140-187).  The result is the event trace: `Except.ok` when the loop runs to
completion or takes the early `return` of line 158, `Except.error` when an
`unwrap` of a span join (lines 166-170) or the Version Gate's `expect`
panics (the trace holds the events that happened before the panic). -/
def walkToks {Req Ver : Type} (join : Span → Span → Option Span)
    (L : SemverLib Req Ver) (env : Option String) :
    List TT → Except (List (WEvent Req)) (List (WEvent Req))
  | [] => .ok []
  | .group g _ :: rest =>
    (match walkToks join L env g with
    | .error es => .error es
    | .ok es =>
      match walkToks join L env rest with
      | .error es2 => .error (es ++ es2)
      | .ok es2 => .ok (es ++ es2))
  | .punct c hsp :: rest =>
    if c == '#' then
      match rest with
      | [] => .ok []
      | .group inner igsp :: rest2 =>
        (match inner with
        | .ident idName idsp :: innerRest =>
          if idName == "allow_until" then
            match innerRest with
            | .group argToks _ :: _ =>
              (match parse_arguments L argToks with
              | .error e => .ok [.parseErr e]
              | .ok a =>
                match join hsp igsp with
                | none => .error []
                | some j1 =>
                  match join j1 idsp with
                  | none => .error []
                  | some j2 =>
                    match emit_error_version_match L env a.version a.reason j2 with
                    | .panicked m => .error [.gate a.version a.reason j2 (.panicked m)]
                    | r =>
                      match walkToks join L env rest2 with
                      | .error es => .error (.gate a.version a.reason j2 r :: es)
                      | .ok es => .ok (.gate a.version a.reason j2 r :: es))
            | _ => walkToks join L env rest2
          else walkToks join L env rest2
        | _ => walkToks join L env rest2)
      | _ :: rest2 => walkToks join L env rest2
    else walkToks join L env rest
  | _ :: rest => walkToks join L env rest

/-- `fn recurse_find_attr` applied to a group: it walks the group's stream. -/
def recurse_find_attr {Req Ver : Type} (join : Span → Span → Option Span)
    (L : SemverLib Req Ver) (env : Option String) (g : List TT) :
    Except (List (WEvent Req)) (List (WEvent Req)) :=
  walkToks join L env g

/-- `pub fn allow_until` (src/lib.rs lines 197-212): the direct-attribute
entry point.  The result is `(emitted diagnostics, output token stream)`, or
the Version Gate's panic message. -/
def allow_until {Req Ver : Type} (L : SemverLib Req Ver) (env : Option String)
    (args input : List TT) : Except String (List Diagnostic × List TT) :=
  match parse_arguments L args with
  | .error e => .ok ([e], input)
  | .ok a =>
    match emit_error_version_match L env a.version a.reason callSite with
    | .panicked m => .error m
    | .silent => .ok ([], input)
    | .emitted d => .ok ([d], input)

/-- `pub fn allow_until_derive` (src/lib.rs lines 224-235): run
`recurse_find_attr` on every top-level group of the stream and produce the
empty output stream `TokenStream::new()`. -/
def allow_until_derive {Req Ver : Type} (join : Span → Span → Option Span)
    (L : SemverLib Req Ver) (env : Option String) :
    List TT → Except (List (WEvent Req)) (List (WEvent Req) × List TT)
  | [] => .ok ([], [])
  | .group g _ :: rest =>
    (match recurse_find_attr join L env g with
    | .error es => .error es
    | .ok es =>
      match allow_until_derive join L env rest with
      | .error es2 => .error (es ++ es2)
      | .ok (es2, out) => .ok (es ++ es2, out))
  | _ :: rest => allow_until_derive join L env rest

/-- The diagnostics an event makes visible: a parse error is emitted as is,
a gate run emits exactly its `emitted` diagnostic if any. -/
def eventDiags {Req : Type} : WEvent Req → List Diagnostic
  | .parseErr d => [d]
  | .gate _ _ _ (.emitted d) => [d]
  | .gate _ _ _ _ => []

/-- All diagnostics emitted along a trace, in order. -/
def traceDiags {Req : Type} (es : List (WEvent Req)) : List Diagnostic :=
  es.flatMap eventDiags

/-- The Version Gate runs recorded in a trace: the parsed constraint and
reason of each processed occurrence, in traversal order. -/
def gateRuns {Req : Type} : List (WEvent Req) → List (Req × Option String)
  | [] => []
  | .gate pred reason _ _ :: es => (pred, reason) :: gateRuns es
  | _ :: es => gateRuns es

/-- Total number of tokens in a sequence, counting the contents of groups at
every nesting depth (each group itself also counts one). -/
def ttlSize : List TT → Nat
  | [] => 0
  | .group g _ :: rest => 1 + ttlSize g + ttlSize rest
  | _ :: rest => 1 + ttlSize rest

/-- Fuel-indexed transcription of the `recurse_find_attr` loop: one unit of
fuel is spent per loop entered, `none` on fuel exhaustion.  Used to state
termination of the traversal (claim C9): beyond `ttlSize` fuel it stabilises
at the value of `walkToks`. -/
def walkFuel {Req Ver : Type} (join : Span → Span → Option Span)
    (L : SemverLib Req Ver) (env : Option String) :
    Nat → List TT → Option (Except (List (WEvent Req)) (List (WEvent Req)))
  | 0, _ => none
  | fuel + 1, toks =>
    match toks with
    | [] => some (.ok [])
    | .group g _ :: rest =>
      (match walkFuel join L env fuel g with
      | none => none
      | some (.error es) => some (.error es)
      | some (.ok es) =>
        match walkFuel join L env fuel rest with
        | none => none
        | some (.error es2) => some (.error (es ++ es2))
        | some (.ok es2) => some (.ok (es ++ es2)))
    | .punct c hsp :: rest =>
      if c == '#' then
        match rest with
        | [] => some (.ok [])
        | .group inner igsp :: rest2 =>
          (match inner with
          | .ident idName idsp :: innerRest =>
            if idName == "allow_until" then
              match innerRest with
              | .group argToks _ :: _ =>
                (match parse_arguments L argToks with
                | .error e => some (.ok [.parseErr e])
                | .ok a =>
                  match join hsp igsp with
                  | none => some (.error [])
                  | some j1 =>
                    match join j1 idsp with
                    | none => some (.error [])
                    | some j2 =>
                      match emit_error_version_match L env a.version a.reason j2 with
                      | .panicked m => some (.error [.gate a.version a.reason j2 (.panicked m)])
                      | r =>
                        match walkFuel join L env fuel rest2 with
                        | none => none
                        | some (.error es) =>
                          some (.error (.gate a.version a.reason j2 r :: es))
                        | some (.ok es) => some (.ok (.gate a.version a.reason j2 r :: es)))
              | _ => walkFuel join L env fuel rest2
            else walkFuel join L env fuel rest2
          | _ => walkFuel join L env fuel rest2)
        | _ :: rest2 => walkFuel join L env fuel rest2
      else walkFuel join L env fuel rest
    | _ :: rest => walkFuel join L env fuel rest

/-- Marker-pattern occurrences anywhere in a token tree, recursing into every
group including a group that itself directly follows a `#` token: the list of
the argument token sequences of each occurrence, in depth-first order.  This
is the claim-side notion of "every occurrence of the marker pattern at every
nesting depth" of claim C2. -/
def allOccs : List TT → List (List TT)
  | [] => []
  | .group g _ :: rest => allOccs g ++ allOccs rest
  | .punct c _ :: .group inner gsp :: rest2 =>
    if c == '#' then
      (match inner with
       | .ident idName _ :: .group argToks _ :: _ =>
         if idName == "allow_until" then [argToks] else []
       | _ => []) ++ (allOccs inner ++ allOccs rest2)
    else allOccs (.group inner gsp :: rest2)
  | _ :: rest => allOccs rest

/-- Marker-pattern occurrences as the Attribute Locator actually reaches
them: a group directly following a `#` token is consumed by the `#` arm of
the loop and never recursed into, and a non-group token directly following a
`#` is likewise consumed.  Result: the argument token sequences of the
located occurrences, in traversal order. -/
def locatedOccs : List TT → List (List TT)
  | [] => []
  | .group g _ :: rest => locatedOccs g ++ locatedOccs rest
  | .punct c _ :: rest =>
    if c == '#' then
      match rest with
      | [] => []
      | .group inner _ :: rest2 =>
        (match inner with
         | .ident idName _ :: .group argToks _ :: _ =>
           if idName == "allow_until" then [argToks] else []
         | _ => []) ++ locatedOccs rest2
      | _ :: rest2 => locatedOccs rest2
    else locatedOccs rest
  | _ :: rest => locatedOccs rest

/-- The gate run an occurrence's argument list gives rise to, if it parses:
the parsed constraint and reason. -/
def occRun {Req Ver : Type} (L : SemverLib Req Ver) (argToks : List TT) :
    Option (Req × Option String) :=
  match parse_arguments L argToks with
  | .ok a => some (a.version, a.reason)
  | .error _ => none

/-- A concrete stand-in for the opaque `semver` crate, used to instantiate
the parameterised theorems on concrete inputs: requirements and versions are
strings, every string parses, and a requirement of the form `>=V` matches
exactly the version `V`. -/
def demoL : SemverLib String String :=
  ⟨some, some, fun r v => r.drop 2 == v, id, id⟩

/-- A concrete total span-join: the union of two span ids is their maximum. -/
def demoJoin : Span → Span → Option Span := fun a b => some (max a b)

/-- A concrete span-join that always fails, for exercising the `unwrap`
panic path. -/
def noJoin : Span → Span → Option Span := fun _ _ => none

/-- A well-formed argument list: `version = ">=1.0.0"` (the literal text
carries its quoting delimiters). -/
def goodArgs : List TT := [.ident "version" 10, .punct '=' 11, .lit "\">=1.0.0\"" 12]

/-- A malformed argument list: its first token is `=` rather than an
identifier. -/
def badArgs : List TT := [.punct '=' 20]

/-- A second well-formed argument list, `version = ">=2.0.0"`. -/
def goodArgs2 : List TT := [.ident "version" 15, .punct '=' 16, .lit "\">=2.0.0\"" 17]

/-- Whether some token of the sequence is the identifier `version`.  A
successful parse can only obtain its version constraint from such a token:
there is no default. -/
def hasVersionIdent (toks : List TT) : Bool :=
  toks.any fun t =>
    match t with
    | .ident n _ => n == "version"
    | _ => false

/-- The argument sequences on which the parse loop of `parse_arguments` runs
to completion without ever seeing a `version` pair: a (possibly empty)
comma-separated list of well-formed `reason` pairs, optionally ending in a
trailing comma.  Every processed pair is a `version` or a `reason` pair, so
this characterises "fully parsed with no version pair seen" (claim C6). -/
def reasonPairsOnly : List TT → Bool
  | [] => true
  | .ident n _ :: .punct c _ :: .lit s _ :: rest =>
    n == "reason" && c == '=' && decide (2 ≤ s.length) &&
      (match rest with
       | [] => true
       | .punct c2 _ :: rest2 => c2 == ',' && reasonPairsOnly rest2
       | _ => false)
  | _ => false

/-- Claim C2's counterexample tree: one marker occurrence (with well-formed
arguments) nested inside a group that itself directly follows a `#` token. -/
def c2Toks : List TT :=
  [.punct '#' 1, .group [.ident "foo" 2, .punct '#' 3,
      .group [.ident "allow_until" 4, .group goodArgs 5] 6] 7]

/-- Claim C1's counterexample item body: a nested group holding a malformed
occurrence, followed (in the enclosing sequence) by a well-formed occurrence
whose constraint matches. -/
def c1Body : List TT :=
  [.group [.punct '#' 30, .group [.ident "allow_until" 31, .group badArgs 32] 33] 34,
   .punct '#' 35, .group [.ident "allow_until" 36, .group goodArgs 37] 38]

/-- Claim C1's counterexample stream: `c1Body` as a derive input. -/
def c1Stream : List TT := [.group c1Body 39]

/-- Claim C2's counterexample tree as a derive input. -/
def c2Stream : List TT := [.group c2Toks 8]

/-- A derive input with two well-formed occurrences in sibling groups, one
matching the current version and one not. -/
def w2Toks : List TT :=
  [.group [.punct '#' 50, .group [.ident "allow_until" 51, .group goodArgs 52] 53] 54,
   .group [.punct '#' 56, .group [.ident "allow_until" 57, .group goodArgs2 58] 59] 60]

/-- Bridge between the fuel-indexed transcription of the traversal loop and
its total embedding: with fuel exceeding the total token count, `walkFuel`
computes `walkToks`.  Proved by the traversal's own induction scheme; this is
the termination argument of the Attribute Locator. -/

theorem walkFuel_spec {Req Ver : Type} (join : Span → Span → Option Span)
    (L : SemverLib Req Ver) (env : Option String) :
    ∀ toks fuel, ttlSize toks < fuel →
      walkFuel join L env fuel toks = some (walkToks join L env toks) := by
  intro toks
  induction toks using walkToks.induct join L env with
  | case1 =>
    intro fuel hlt
    obtain ⟨f, rfl⟩ : ∃ f, fuel = f + 1 := ⟨fuel - 1, by omega⟩
    simp only [walkFuel, walkToks]
  | case2 g sp rest es hg ih =>
    intro fuel hlt
    obtain ⟨f, rfl⟩ : ∃ f, fuel = f + 1 := ⟨fuel - 1, by omega⟩
    simp only [ttlSize] at hlt
    simp only [walkFuel, walkToks]
    rw [ih f (by omega), hg]
  | case3 g sp rest esg hg esr hr ihg ihr =>
    intro fuel hlt
    obtain ⟨f, rfl⟩ : ∃ f, fuel = f + 1 := ⟨fuel - 1, by omega⟩
    simp only [ttlSize] at hlt
    simp only [walkFuel, walkToks]
    rw [ihg f (by omega), ihr f (by omega), hg, hr]
  | case4 g sp rest esg hg esr hr ihg ihr =>
    intro fuel hlt
    obtain ⟨f, rfl⟩ : ∃ f, fuel = f + 1 := ⟨fuel - 1, by omega⟩
    simp only [ttlSize] at hlt
    simp only [walkFuel, walkToks]
    rw [ihg f (by omega), ihr f (by omega), hg, hr]
  | case5 c hsp hc =>
    intro fuel hlt
    obtain ⟨f, rfl⟩ : ∃ f, fuel = f + 1 := ⟨fuel - 1, by omega⟩
    simp only [walkFuel, walkToks, hc]
    simp
  | case6 c hsp hc igsp rest2 idName idsp hid argToks sp tail e hparse =>
    intro fuel hlt
    obtain ⟨f, rfl⟩ : ∃ f, fuel = f + 1 := ⟨fuel - 1, by omega⟩
    simp only [walkFuel, walkToks, hc, hid, hparse, if_true]
    try simp
  | case7 c hsp hc igsp rest2 idName idsp hid argToks sp tail a hparse hj1 =>
    intro fuel hlt
    obtain ⟨f, rfl⟩ : ∃ f, fuel = f + 1 := ⟨fuel - 1, by omega⟩
    simp only [walkFuel, walkToks, hc, hid, hparse, hj1, if_true]
    try simp
  | case8 c hsp hc igsp rest2 idName idsp hid argToks sp tail a hparse j1 hj1 hj2 =>
    intro fuel hlt
    obtain ⟨f, rfl⟩ : ∃ f, fuel = f + 1 := ⟨fuel - 1, by omega⟩
    simp only [walkFuel, walkToks, hc, hid, hparse, hj1, hj2, if_true]
    try simp
  | case9 c hsp hc igsp rest2 idName idsp hid argToks sp tail a hparse j1 hj1 j2 hj2 m hgate =>
    intro fuel hlt
    obtain ⟨f, rfl⟩ : ∃ f, fuel = f + 1 := ⟨fuel - 1, by omega⟩
    simp only [walkFuel, walkToks, hc, hid, hparse, hj1, hj2, hgate, if_true]
    try simp
  | case10 c hsp hc igsp rest2 idName idsp hid argToks sp tail a hparse j1 hj1 j2 hj2 es hrest hnp ih =>
    intro fuel hlt
    obtain ⟨f, rfl⟩ : ∃ f, fuel = f + 1 := ⟨fuel - 1, by omega⟩
    simp only [ttlSize] at hlt
    simp only [walkFuel, walkToks, hc, hid, hparse, hj1, hj2, if_true]
    rw [ih f (by omega), hrest]
  | case11 c hsp hc igsp rest2 idName idsp hid argToks sp tail a hparse j1 hj1 j2 hj2 es hrest hnp ih =>
    intro fuel hlt
    obtain ⟨f, rfl⟩ : ∃ f, fuel = f + 1 := ⟨fuel - 1, by omega⟩
    simp only [ttlSize] at hlt
    simp only [walkFuel, walkToks, hc, hid, hparse, hj1, hj2, if_true]
    rw [ih f (by omega), hrest]
  | case12 c hsp hc igsp rest2 idName idsp innerRest hid hnotg ih =>
    intro fuel hlt
    obtain ⟨f, rfl⟩ : ∃ f, fuel = f + 1 := ⟨fuel - 1, by omega⟩
    simp only [ttlSize] at hlt
    cases innerRest with
    | nil =>
      conv_rhs => rw [walkToks.eq_def]
      simp only [walkFuel, hc, hid, if_true]
      exact ih f (by omega)
    | cons h t =>
      cases h with
      | group g2 sp2 => exact absurd rfl (hnotg g2 sp2 t)
      | ident s2 sp2 =>
        conv_rhs => rw [walkToks.eq_def]
        simp only [walkFuel, hc, hid, if_true]
        exact ih f (by omega)
      | punct c2 sp2 =>
        conv_rhs => rw [walkToks.eq_def]
        simp only [walkFuel, hc, hid, if_true]
        exact ih f (by omega)
      | lit s2 sp2 =>
        conv_rhs => rw [walkToks.eq_def]
        simp only [walkFuel, hc, hid, if_true]
        exact ih f (by omega)
  | case13 c hsp hc igsp rest2 idName idsp innerRest hnid ih =>
    intro fuel hlt
    obtain ⟨f, rfl⟩ : ∃ f, fuel = f + 1 := ⟨fuel - 1, by omega⟩
    simp only [ttlSize] at hlt
    conv_rhs => rw [walkToks.eq_def]
    simp only [walkFuel, hc, hnid, if_true]
    exact ih f (by omega)
  | case14 c hsp hc inner igsp rest2 hnotident ih =>
    intro fuel hlt
    obtain ⟨f, rfl⟩ : ∃ f, fuel = f + 1 := ⟨fuel - 1, by omega⟩
    simp only [ttlSize] at hlt
    cases inner with
    | nil =>
      conv_rhs => rw [walkToks.eq_def]
      simp only [walkFuel, hc, if_true]
      exact ih f (by omega)
    | cons h t =>
      cases h with
      | ident s2 sp2 => exact absurd rfl (hnotident s2 sp2 t)
      | group g2 sp2 =>
        conv_rhs => rw [walkToks.eq_def]
        simp only [walkFuel, hc, if_true]
        exact ih f (by omega)
      | punct c2 sp2 =>
        conv_rhs => rw [walkToks.eq_def]
        simp only [walkFuel, hc, if_true]
        exact ih f (by omega)
      | lit s2 sp2 =>
        conv_rhs => rw [walkToks.eq_def]
        simp only [walkFuel, hc, if_true]
        exact ih f (by omega)
  | case15 c hsp hc head rest2 hnotgroup ih =>
    intro fuel hlt
    obtain ⟨f, rfl⟩ : ∃ f, fuel = f + 1 := ⟨fuel - 1, by omega⟩
    simp only [ttlSize] at hlt
    cases head with
    | group g2 sp2 => exact absurd rfl (hnotgroup g2 sp2)
    | ident s2 sp2 =>
      conv_rhs => rw [walkToks.eq_def]
      simp only [walkFuel, hc, if_true]
      exact ih f (by omega)
    | punct c2 sp2 =>
      conv_rhs => rw [walkToks.eq_def]
      simp only [walkFuel, hc, if_true]
      exact ih f (by omega)
    | lit s2 sp2 =>
      conv_rhs => rw [walkToks.eq_def]
      simp only [walkFuel, hc, if_true]
      exact ih f (by omega)
  | case16 c hsp rest hnc ih =>
    intro fuel hlt
    obtain ⟨f, rfl⟩ : ∃ f, fuel = f + 1 := ⟨fuel - 1, by omega⟩
    simp only [ttlSize] at hlt
    conv_rhs => rw [walkToks.eq_def]
    simp only [walkFuel, hnc]
    exact ih f (by omega)
  | case17 head rest hng hnp ih =>
    intro fuel hlt
    obtain ⟨f, rfl⟩ : ∃ f, fuel = f + 1 := ⟨fuel - 1, by omega⟩
    simp only [ttlSize] at hlt
    cases head with
    | group g2 sp2 => exact absurd rfl (hng g2 sp2)
    | punct c2 sp2 => exact absurd rfl (hnp c2 sp2)
    | ident s2 sp2 =>
      conv_rhs => rw [walkToks.eq_def]
      simp only [walkFuel]
      exact ih f (by omega)
    | lit s2 sp2 =>
      conv_rhs => rw [walkToks.eq_def]
      simp only [walkFuel]
      exact ih f (by omega)


/-- Helper: `gateRuns` distributes over concatenation of traces. -/
theorem gateRuns_append {Req : Type} (es1 es2 : List (WEvent Req)) :
    gateRuns (es1 ++ es2) = gateRuns es1 ++ gateRuns es2 := by
  induction es1 with
  | nil => rfl
  | cons e es ih => cases e <;> simp [gateRuns, ih]

/-- Helper: when the current-version value, if present, parses as a version,
the Version Gate cannot hit its `expect` panic. -/
theorem gate_not_panicked {Req Ver : Type} (L : SemverLib Req Ver) {env : Option String}
    (hv : ∀ s, env = some s → (L.parseVer s).isSome = true)
    (pred : Req) (reason : Option String) (sp : Span) (m : String) :
    emit_error_version_match L env pred reason sp ≠ .panicked m := by
  cases env with
  | none => simp [emit_error_version_match]
  | some s =>
    have hs := hv s rfl
    cases hp : L.parseVer s with
    | none => rw [hp] at hs; simp at hs
    | some v =>
      simp only [emit_error_version_match, hp]
      split <;> simp

/-- C3: for every argument token stream and every input item token stream,
the direct-attribute entry point returns the input item unchanged — in the
success case, in the argument-parse-error case, and in the
constraint-matches case alike; the only observable effects are the emitted
diagnostics. -/
theorem C3_passthrough {Req Ver : Type} (L : SemverLib Req Ver) (env : Option String)
    (args input : List TT) (ds : List Diagnostic) (out : List TT)
    (h : allow_until L env args input = .ok (ds, out)) : out = input := by
  unfold allow_until at h
  cases hp : parse_arguments L args with
  | error e =>
    rw [hp] at h
    simp at h
    exact h.2.symm
  | ok a =>
    rw [hp] at h
    cases hg : emit_error_version_match L env a.version a.reason callSite <;>
      simp [hg] at h
    · exact h.2.symm
    · exact h.2.symm

/-- Witness for C3 at a concrete input: a well-formed argument list with no
current version available passes the item through with no diagnostic. -/
theorem C3_passthrough_wit :
    allow_until demoL none goodArgs [TT.ident "q" 70] = .ok ([], [TT.ident "q" 70]) ∧
      [TT.ident "q" 70] = [TT.ident "q" 70] :=
  ⟨rfl, C3_passthrough demoL none goodArgs [TT.ident "q" 70] [] [TT.ident "q" 70] rfl⟩

/-- C4: the Version Gate is silent when the environment value is absent or
the constraint does not match, emits exactly the documented message at the
supplied span when it matches (with and without a reason), and panics only
when the environment value does not parse. -/
theorem C4_gate {Req Ver : Type} (L : SemverLib Req Ver) (env : Option String)
    (pred : Req) (reason : Option String) (sp : Span) :
    (env = none → emit_error_version_match L env pred reason sp = .silent) ∧
    (∀ s v, env = some s → L.parseVer s = some v → L.vermatches pred v = false →
      emit_error_version_match L env pred reason sp = .silent) ∧
    (∀ s v, env = some s → L.parseVer s = some v → L.vermatches pred v = true →
      ∀ r, reason = some r →
        emit_error_version_match L env pred reason sp =
          .emitted ⟨sp, r ++ " (version " ++ L.verStr v ++ " matches " ++ L.reqStr pred ++ ")",
            none⟩) ∧
    (∀ s v, env = some s → L.parseVer s = some v → L.vermatches pred v = true →
      reason = none →
        emit_error_version_match L env pred reason sp =
          .emitted ⟨sp, "item not allowed! (version " ++ L.verStr v ++ " matches "
            ++ L.reqStr pred ++ ")", none⟩) ∧
    (∀ s, env = some s → L.parseVer s = none →
      emit_error_version_match L env pred reason sp = .panicked "invalid cargo semver ver") := by
  refine ⟨?_, ?_, ?_, ?_, ?_⟩
  · intro h; subst h; rfl
  · intro s v hs hp hm; subst hs; simp [emit_error_version_match, hp, hm]
  · intro s v hs hp hm r hr; subst hs; subst hr; simp [emit_error_version_match, hp, hm]
  · intro s v hs hp hm hr; subst hs; subst hr; simp [emit_error_version_match, hp, hm]
  · intro s hs hp; subst hs; simp [emit_error_version_match, hp]

/-- Witness for C4 at a concrete input: with current version 1.0.0 and a
matching constraint and a reason, the gate emits the documented message. -/
theorem C4_gate_wit :
    emit_error_version_match demoL (some "1.0.0") ">=1.0.0" (some "deprecated") 9 =
      .emitted ⟨9, "deprecated (version 1.0.0 matches >=1.0.0)", none⟩ :=
  (C4_gate demoL (some "1.0.0") ">=1.0.0" (some "deprecated") 9).2.2.1 "1.0.0" "1.0.0"
    rfl rfl (by decide) "deprecated" rfl

/-- Counterexample to C5 as stated: a sequence ending in a trailing comma
after a valid `version` pair is parsed successfully. -/
theorem C5_cex : parse_arguments demoL
    [.ident "version" 1, .punct '=' 2, .lit "\">=1.0.0\"" 3, .punct ',' 4] =
    .ok ⟨">=1.0.0", none⟩ := rfl

/-- C5 (amended): after a pair the parser accepts a separating comma
followed by another pair or by the end of the stream, so a valid `version`
pair with a trailing comma parses successfully, to the same result as
without the comma. -/
theorem C5_amended {Req Ver : Type} (L : SemverLib Req Ver) (s m : String) (q : Req)
    (sp1 sp2 sp3 sp4 : Span) (h1 : litUnquote s = some m) (h2 : L.parseReq m = some q) :
    parse_arguments L [.ident "version" sp1, .punct '=' sp2, .lit s sp3, .punct ',' sp4] =
      .ok ⟨q, none⟩ ∧
    parse_arguments L [.ident "version" sp1, .punct '=' sp2, .lit s sp3] = .ok ⟨q, none⟩ := by
  constructor <;> simp [parse_arguments, parseArgsLoop, dispatchPair, h1, h2, finishArgs]

/-- Witness for the amended C5 at a concrete input. -/
theorem C5_amended_wit :
    parse_arguments demoL [.ident "version" 1, .punct '=' 2, .lit "\">=1.0.0\"" 3, .punct ',' 4] =
      .ok ⟨">=1.0.0", none⟩ ∧
    parse_arguments demoL [.ident "version" 1, .punct '=' 2, .lit "\">=1.0.0\"" 3] =
      .ok ⟨">=1.0.0", none⟩ :=
  C5_amended demoL "\">=1.0.0\"" ">=1.0.0" ">=1.0.0" 1 2 3 4 rfl rfl

/-- Counterexample to C7 as stated: an argument sequence whose first token is
the unknown identifier `foo`, but which ends there, fails with the
end-of-tokens diagnostic, not with "unknown argument". -/
theorem C7_cex :
    parse_arguments demoL [.ident "foo" 5] =
      .error ⟨callSite, "unexpected end of tokens", some "expected `=`"⟩ ∧
    "unexpected end of tokens" ≠ "unknown argument" := ⟨rfl, by decide⟩

/-- C7 (amended): when an identifier other than `version` or `reason` is
followed by `=` and a literal token, parsing fails with "unknown argument"
and the help note listing the two valid names (the error is raised only
after the `=` and the literal have been consumed, and is anchored at the
literal). -/
theorem C7_amended {Req Ver : Type} (L : SemverLib Req Ver) (name : String) (isp esp : Span)
    (s : String) (lsp : Span) (rest : List TT)
    (h1 : name ≠ "version") (h2 : name ≠ "reason") :
    parse_arguments L (.ident name isp :: .punct '=' esp :: .lit s lsp :: rest) =
      .error ⟨lsp, "unknown argument", some "valid arguments are `version` and `reason`"⟩ := by
  have b1 : (name == "version") = false := by simpa using h1
  have b2 : (name == "reason") = false := by simpa using h2
  simp [parse_arguments, parseArgsLoop, dispatchPair, b1, b2]

/-- Witness for the amended C7 at a concrete input. -/
theorem C7_amended_wit :
    parse_arguments demoL [.ident "foo" 5, .punct '=' 6, .lit "\"x\"" 7] =
      .error ⟨7, "unknown argument", some "valid arguments are `version` and `reason`"⟩ :=
  C7_amended demoL "foo" 5 6 "\"x\"" 7 [] (by decide) (by decide)

/-- C8: the raw string value of a pair is the literal's text with exactly its
first and last character removed, with no escape processing: a too-short
literal fails with "expected string literal", a `reason` pair stores the
stripped text verbatim, and a `version` pair feeds exactly the stripped text
to the constraint parser. -/
theorem C8_unquote {Req Ver : Type} (L : SemverLib Req Ver) :
    (∀ (s : String) (isp esp lsp : Span) (rest : List TT), s.length < 2 →
      parse_arguments L (.ident "version" isp :: .punct '=' esp :: .lit s lsp :: rest) =
        .error ⟨lsp, "expected string literal", none⟩) ∧
    (∀ (s : String) (isp esp lsp : Span) (rest : List TT), s.length < 2 →
      parse_arguments L (.ident "reason" isp :: .punct '=' esp :: .lit s lsp :: rest) =
        .error ⟨lsp, "expected string literal", none⟩) ∧
    (∀ (sv sr : String) (q : Req) (i1 e1 l1 k1 i2 e2 l2 : Span),
      2 ≤ sv.length → 2 ≤ sr.length →
      L.parseReq ((sv.drop 1).dropRight 1) = some q →
      parse_arguments L [.ident "version" i1, .punct '=' e1, .lit sv l1, .punct ',' k1,
          .ident "reason" i2, .punct '=' e2, .lit sr l2] =
        .ok ⟨q, some ((sr.drop 1).dropRight 1)⟩) ∧
    (∀ (sv : String) (i1 e1 l1 : Span) (rest : List TT),
      2 ≤ sv.length → L.parseReq ((sv.drop 1).dropRight 1) = none →
      parse_arguments L (.ident "version" i1 :: .punct '=' e1 :: .lit sv l1 :: rest) =
        .error ⟨l1, "invalid semver version", none⟩) := by
  refine ⟨?_, ?_, ?_, ?_⟩
  · intro s isp esp lsp rest h
    have h2 : ¬ 2 ≤ s.length := by omega
    simp [parse_arguments, parseArgsLoop, dispatchPair, litUnquote, h2]
  · intro s isp esp lsp rest h
    have h2 : ¬ 2 ≤ s.length := by omega
    simp [parse_arguments, parseArgsLoop, dispatchPair, litUnquote, h2]
  · intro sv sr q i1 e1 l1 k1 i2 e2 l2 hv hr hq
    simp [parse_arguments, parseArgsLoop, dispatchPair, litUnquote, hv, hr, hq, finishArgs]
  · intro sv i1 e1 l1 rest hv hq
    simp [parse_arguments, parseArgsLoop, dispatchPair, litUnquote, hv, hq]

/-- Witness for C8 at concrete inputs: a one-character literal fails, and a
two-pair list yields the stripped values. -/
theorem C8_unquote_wit :
    parse_arguments demoL [.ident "version" 1, .punct '=' 2, .lit "x" 3] =
      .error ⟨3, "expected string literal", none⟩ ∧
    parse_arguments demoL [.ident "version" 1, .punct '=' 2, .lit "\">=1.0.0\"" 3, .punct ',' 4,
        .ident "reason" 5, .punct '=' 6, .lit "\"why\"" 7] =
      .ok ⟨">=1.0.0", some "why"⟩ := by
  constructor
  · exact (C8_unquote demoL).1 "x" 1 2 3 [] (by decide)
  · have h := (C8_unquote demoL).2.2.1 "\">=1.0.0\"" "\"why\"" ">=1.0.0" 1 2 3 4 5 6 7
      (by decide) (by decide) (by decide)
    simpa using h



/-- Helper: the dispatch of a pair whose key is not `version` never changes
the version accumulator. -/
theorem dispatchPair_not_version {Req Ver : Type} (L : SemverLib Req Ver)
    {name s : String} {sp : Span} {v v2 : Option Req} {r r2 : Option String}
    (hb : (name == "version") = false)
    (h : dispatchPair L name s sp v r = .ok (v2, r2)) : v2 = v := by
  simp only [dispatchPair, hb, Bool.false_eq_true, if_false] at h
  by_cases hr : (name == "reason") = true
  · rw [hr] at h
    simp only [if_true] at h
    cases hl : litUnquote s <;> rw [hl] at h <;> simp at h
    exact h.1.symm
  · rw [Bool.not_eq_true] at hr
    rw [hr] at h
    simp at h

/-- Helper: shape facts from a well-formed leading `reason` pair. -/
theorem reasonPairsOnly_head {n : String} {nsp : Span} {c : Char} {csp : Span} {s : String}
    {lsp : Span} {rest : List TT}
    (h : reasonPairsOnly (.ident n nsp :: .punct c csp :: .lit s lsp :: rest) = true) :
    n = "reason" ∧ c = '=' ∧ 2 ≤ s.length := by
  rcases rest with _ | ⟨t, tail⟩
  · simp only [reasonPairsOnly, Bool.and_eq_true, beq_iff_eq, decide_eq_true_eq] at h
    exact ⟨by tauto, by tauto, by tauto⟩
  · cases t <;>
      simp only [reasonPairsOnly, Bool.and_eq_true, beq_iff_eq, decide_eq_true_eq] at h <;>
      exact ⟨by tauto, by tauto, by tauto⟩

/-- Helper: on an all-reason argument list the parse loop (started with no
version seen) completes and returns the missing-version error. -/
theorem reasonPairsOnly_missing {Req Ver : Type} (L : SemverLib Req Ver) :
    ∀ toks (v : Option Req) (r : Option String), reasonPairsOnly toks = true → v = none →
      parseArgsLoop L toks v r =
        .error ⟨callSite, "missing required `version` argument", none⟩ := by
  intro toks v r
  induction toks, v, r using parseArgsLoop.induct L with
  | case1 version reason =>
    intro hrp hv
    subst hv
    rfl
  | case2 name sp version reason =>
    intro hrp hv
    simp [reasonPairsOnly] at hrp
  | case3 name sp version reason c2 sp2 hc =>
    intro hrp hv
    simp [reasonPairsOnly] at hrp
  | case4 name sp version reason c2 sp2 hc litStr litSp rest3 e hdisp =>
    intro hrp hv
    obtain ⟨hn, hce, hlen⟩ := reasonPairsOnly_head hrp
    subst hn
    simp [dispatchPair, litUnquote, hlen] at hdisp
  | case5 name sp version reason c2 sp2 hc litStr litSp version2 reason2 hdisp =>
    intro hrp hv
    subst hv
    obtain ⟨hn, hce, hlen⟩ := reasonPairsOnly_head hrp
    have h2 : version2 = none := by
      have hb : (name == "version") = false := by subst hn; decide
      exact dispatchPair_not_version L hb hdisp
    subst h2
    simp only [parseArgsLoop, hc, if_true, hdisp]
    rfl
  | case6 name sp version reason c2 sp2 hc litStr litSp version2 reason2 hdisp c3 sp3 rest4 hc3 ih =>
    intro hrp hv
    subst hv
    obtain ⟨hn, hce, hlen⟩ := reasonPairsOnly_head hrp
    simp only [reasonPairsOnly, Bool.and_eq_true, beq_iff_eq, decide_eq_true_eq] at hrp
    have hrest : reasonPairsOnly rest4 = true := by tauto
    have h2 : version2 = none := by
      have hb : (name == "version") = false := by subst hn; decide
      exact dispatchPair_not_version L hb hdisp
    subst h2
    simp only [parseArgsLoop, hc, if_true, hdisp, hc3]
    exact ih hrest rfl
  | case7 name sp version reason c2 sp2 hc litStr litSp version2 reason2 hdisp c3 sp3 rest4 hc3 =>
    intro hrp hv
    simp only [reasonPairsOnly, Bool.and_eq_true, beq_iff_eq, decide_eq_true_eq] at hrp
    have hcomma : c3 = ',' := by tauto
    exact absurd (by simp [hcomma]) hc3
  | case8 name sp version reason c2 sp2 hc litStr litSp version2 reason2 hdisp t tail hnp =>
    intro hrp hv
    cases t with
    | punct c4 sp4 => exact absurd rfl (hnp c4 sp4)
    | ident a b => simp [reasonPairsOnly] at hrp
    | lit a b => simp [reasonPairsOnly] at hrp
    | group a b => simp [reasonPairsOnly] at hrp
  | case9 name sp version reason c2 sp2 hc t tail hnl =>
    intro hrp hv
    cases t with
    | lit a b => exact absurd rfl (hnl a b)
    | ident a b => simp [reasonPairsOnly] at hrp
    | punct a b => simp [reasonPairsOnly] at hrp
    | group a b => simp [reasonPairsOnly] at hrp
  | case10 name sp version reason c2 sp2 rest4 hnc =>
    intro hrp hv
    cases rest4 with
    | nil => simp [reasonPairsOnly] at hrp
    | cons t tail =>
      cases t with
      | lit a b =>
        obtain ⟨hn, hce, hlen⟩ := reasonPairsOnly_head hrp
        exact absurd (by simp [hce]) hnc
      | ident a b => simp [reasonPairsOnly] at hrp
      | punct a b => simp [reasonPairsOnly] at hrp
      | group a b => simp [reasonPairsOnly] at hrp
  | case11 name sp version reason t tail hnp =>
    intro hrp hv
    cases t with
    | punct a b => exact absurd rfl (hnp a b)
    | ident a b => simp [reasonPairsOnly] at hrp
    | lit a b => simp [reasonPairsOnly] at hrp
    | group a b => simp [reasonPairsOnly] at hrp
  | case12 t tail version reason hni =>
    intro hrp hv
    cases t with
    | ident a b => exact absurd rfl (hni a b)
    | punct a b => simp [reasonPairsOnly] at hrp
    | lit a b => simp [reasonPairsOnly] at hrp
    | group a b => simp [reasonPairsOnly] at hrp

/-- Helper: when no token of the sequence is the identifier `version` and no
version has been seen, the parse loop cannot succeed. -/
theorem noVersionIdent_no_ok {Req Ver : Type} (L : SemverLib Req Ver) :
    ∀ toks (v : Option Req) (r : Option String) (a : Args Req),
      hasVersionIdent toks = false → v = none → parseArgsLoop L toks v r ≠ .ok a := by
  intro toks v r
  induction toks, v, r using parseArgsLoop.induct L with
  | case1 version reason =>
    intro a hvi hv
    subst hv
    simp [parseArgsLoop, finishArgs]
  | case2 name sp version reason =>
    intro a hvi hv
    simp [parseArgsLoop]
  | case3 name sp version reason c2 sp2 hc =>
    intro a hvi hv
    simp [parseArgsLoop, hc]
  | case4 name sp version reason c2 sp2 hc litStr litSp rest3 e hdisp =>
    intro a hvi hv
    simp [parseArgsLoop, hc, hdisp]
  | case5 name sp version reason c2 sp2 hc litStr litSp version2 reason2 hdisp =>
    intro a hvi hv
    subst hv
    have hb : (name == "version") = false := by
      simp only [hasVersionIdent, List.any_cons, Bool.or_eq_false_iff] at hvi
      exact hvi.1
    have h2 : version2 = none := dispatchPair_not_version L hb hdisp
    subst h2
    simp [parseArgsLoop, hc, hdisp, finishArgs]
  | case6 name sp version reason c2 sp2 hc litStr litSp version2 reason2 hdisp c3 sp3 rest4 hc3 ih =>
    intro a hvi hv
    subst hv
    simp only [hasVersionIdent, List.any_cons, Bool.or_eq_false_iff] at hvi
    have hb : (name == "version") = false := hvi.1
    have hrest : hasVersionIdent rest4 = false := by
      simp only [hasVersionIdent]
      exact hvi.2.2.2.2
    have h2 : version2 = none := dispatchPair_not_version L hb hdisp
    subst h2
    simp only [parseArgsLoop, hc, if_true, hdisp, hc3]
    exact ih a hrest rfl
  | case7 name sp version reason c2 sp2 hc litStr litSp version2 reason2 hdisp c3 sp3 rest4 hc3 =>
    intro a hvi hv
    simp [parseArgsLoop, hc, hdisp, hc3]
  | case8 name sp version reason c2 sp2 hc litStr litSp version2 reason2 hdisp t tail hnp =>
    intro a hvi hv
    cases t <;> simp [parseArgsLoop, hc, hdisp] <;> exact fun h => absurd rfl (hnp _ _)
  | case9 name sp version reason c2 sp2 hc t tail hnl =>
    intro a hvi hv
    cases t <;> simp [parseArgsLoop, hc] <;> exact fun h => absurd rfl (hnl _ _)
  | case10 name sp version reason c2 sp2 rest4 hnc =>
    intro a hvi hv
    rcases rest4 with _ | ⟨t, tail⟩
    · simp [parseArgsLoop, hnc]
    · cases t <;> simp [parseArgsLoop, hnc]
  | case11 name sp version reason t tail hnp =>
    intro a hvi hv
    cases t <;> simp [parseArgsLoop]
  | case12 t tail version reason hni =>
    intro a hvi hv
    cases t <;> simp [parseArgsLoop]


/-- C6: an argument list that is fully parsed without a version pair ever
being seen (an all-reason list) yields the "missing required `version`
argument" error anchored at the call site, and the Version Gate never runs
for that invocation (the entry point emits only that diagnostic);
conversely, a parse can only succeed when a `version` identifier occurs in
the input: there is no default. -/
theorem C6_missing_version {Req Ver : Type} (L : SemverLib Req Ver) (toks : List TT) :
    (reasonPairsOnly toks = true →
      parse_arguments L toks =
        .error ⟨callSite, "missing required `version` argument", none⟩) ∧
    (hasVersionIdent toks = false → ∀ a, parse_arguments L toks ≠ .ok a) ∧
    (reasonPairsOnly toks = true → ∀ env input,
      allow_until L env toks input =
        .ok ([⟨callSite, "missing required `version` argument", none⟩], input)) := by
  refine ⟨?_, ?_, ?_⟩
  · intro h
    exact reasonPairsOnly_missing L toks none none h rfl
  · intro h a
    exact noVersionIdent_no_ok L toks none none a h rfl
  · intro h env input
    unfold allow_until
    rw [show parse_arguments L toks =
      .error ⟨callSite, "missing required `version` argument", none⟩ from
      reasonPairsOnly_missing L toks none none h rfl]

/-- Witness for C6 at the spec's own test input `(reason = "x")`. -/
theorem C6_missing_version_wit :
    parse_arguments demoL [.ident "reason" 80, .punct '=' 81, .lit "\"x\"" 82] =
      .error ⟨callSite, "missing required `version` argument", none⟩ ∧
    allow_until demoL (some "1.0.0") [.ident "reason" 80, .punct '=' 81, .lit "\"x\"" 82]
        [.ident "y" 83] =
      .ok ([⟨callSite, "missing required `version` argument", none⟩], [.ident "y" 83]) :=
  ⟨(C6_missing_version demoL [.ident "reason" 80, .punct '=' 81, .lit "\"x\"" 82]).1 (by decide),
   (C6_missing_version demoL [.ident "reason" 80, .punct '=' 81, .lit "\"x\"" 82]).2.2 (by decide)
     (some "1.0.0") [.ident "y" 83]⟩

/-- Helper: master induction over the Attribute Locator's traversal.  When
every span join succeeds and the current-version value (if present) parses,
the walk never panics, and when additionally every located occurrence's
arguments parse, the Version Gate runs exactly once per located occurrence,
in traversal order. -/
theorem walk_master {Req Ver : Type} (join : Span → Span → Option Span)
    (L : SemverLib Req Ver) (env : Option String)
    (hj : ∀ a b, (join a b).isSome = true)
    (hv : ∀ s, env = some s → (L.parseVer s).isSome = true) :
    ∀ toks, ∃ es, walkToks join L env toks = .ok es ∧
      ((∀ args ∈ locatedOccs toks, (occRun L args).isSome = true) →
        gateRuns es = (locatedOccs toks).filterMap (occRun L)) := by
  intro toks
  induction toks using walkToks.induct join L env with
  | case1 =>
    refine ⟨[], by simp [walkToks], ?_⟩
    intro _
    simp [locatedOccs, gateRuns]
  | case2 g sp rest es hg ih =>
    obtain ⟨es1, h1, _⟩ := ih
    rw [hg] at h1
    simp at h1
  | case3 g sp rest esg hg esr hr ihg ihr =>
    obtain ⟨es2, h2, _⟩ := ihr
    rw [hr] at h2
    simp at h2
  | case4 g sp rest esg hg esr hr ihg ihr =>
    obtain ⟨es1, h1, hq1⟩ := ihg
    obtain ⟨es2, h2, hq2⟩ := ihr
    rw [h1] at hg
    rw [h2] at hr
    have hleq : locatedOccs (TT.group g sp :: rest) = locatedOccs g ++ locatedOccs rest := by
      simp [locatedOccs]
    refine ⟨es1 ++ es2, by simp only [walkToks, h1, h2], ?_⟩
    intro hp
    rw [hleq] at hp ⊢
    rw [gateRuns_append, List.filterMap_append]
    rw [hq1 fun x hx => hp x (List.mem_append_left _ hx),
      hq2 fun x hx => hp x (List.mem_append_right _ hx)]
  | case5 c hsp hc =>
    obtain rfl : c = '#' := by simpa using hc
    refine ⟨[], by simp [walkToks], ?_⟩
    intro _
    simp [locatedOccs, gateRuns]
  | case6 c hsp hc igsp rest2 idName idsp hid argToks sp tail e hparse =>
    obtain rfl : c = '#' := by simpa using hc
    obtain rfl : idName = "allow_until" := by simpa using hid
    refine ⟨[.parseErr e], by simp [walkToks, hparse], ?_⟩
    intro hp
    have hx := hp argToks (by simp [locatedOccs])
    simp [occRun, hparse] at hx
  | case7 c hsp hc igsp rest2 idName idsp hid argToks sp tail a hparse hj1 =>
    have h := hj hsp igsp
    rw [hj1] at h
    simp at h
  | case8 c hsp hc igsp rest2 idName idsp hid argToks sp tail a hparse j1 hj1 hj2 =>
    have h := hj j1 idsp
    rw [hj2] at h
    simp at h
  | case9 c hsp hc igsp rest2 idName idsp hid argToks sp tail a hparse j1 hj1 j2 hj2 m hgate =>
    exact absurd hgate (gate_not_panicked L hv a.version a.reason j2 m)
  | case10 c hsp hc igsp rest2 idName idsp hid argToks sp tail a hparse j1 hj1 j2 hj2 es hrest hnp ih =>
    obtain ⟨es1, h1, _⟩ := ih
    rw [hrest] at h1
    simp at h1
  | case11 c hsp hc igsp rest2 idName idsp hid argToks sp tail a hparse j1 hj1 j2 hj2 es hrest hnp ih =>
    obtain ⟨es1, h1, hq1⟩ := ih
    rw [h1] at hrest
    obtain rfl : es1 = es := Except.ok.inj hrest
    obtain rfl : c = '#' := by simpa using hc
    obtain rfl : idName = "allow_until" := by simpa using hid
    refine ⟨.gate a.version a.reason j2 (emit_error_version_match L env a.version a.reason j2)
        :: es1, ?_, ?_⟩
    · cases hres : emit_error_version_match L env a.version a.reason j2 with
      | panicked m => exact absurd hres (gate_not_panicked L hv a.version a.reason j2 m)
      | silent => simp [walkToks, hparse, hj1, hj2, hres, h1]
      | emitted d => simp [walkToks, hparse, hj1, hj2, hres, h1]
    · intro hp
      have hleq : locatedOccs (TT.punct '#' hsp ::
          TT.group (TT.ident "allow_until" idsp :: TT.group argToks sp :: tail) igsp :: rest2) =
          argToks :: locatedOccs rest2 := by simp [locatedOccs]
      rw [hleq] at hp ⊢
      rw [List.filterMap_cons]
      have hocc : occRun L argToks = some (a.version, a.reason) := by simp [occRun, hparse]
      rw [hocc]
      simp only [gateRuns]
      rw [hq1 fun x hx => hp x (List.mem_cons_of_mem _ hx)]
  | case12 c hsp hc igsp rest2 idName idsp innerRest hid hnotg ih =>
    obtain ⟨es1, h1, hq1⟩ := ih
    obtain rfl : c = '#' := by simpa using hc
    obtain rfl : idName = "allow_until" := by simpa using hid
    rcases innerRest with _ | ⟨t, tail⟩
    · refine ⟨es1, ?_, ?_⟩
      · conv_lhs => rw [walkToks.eq_def]
        simpa using h1
      · intro hp
        have hleq : locatedOccs (TT.punct '#' hsp ::
            TT.group [TT.ident "allow_until" idsp] igsp :: rest2) = locatedOccs rest2 := by
          conv_lhs => rw [locatedOccs.eq_def]
          simp
        rw [hleq] at hp ⊢
        exact hq1 hp
    · cases t with
      | group g2 sp2 => exact absurd rfl (hnotg g2 sp2 tail)
      | ident s2 sp2 =>
        refine ⟨es1, ?_, ?_⟩
        · conv_lhs => rw [walkToks.eq_def]
          simpa using h1
        · intro hp
          have hleq : locatedOccs (TT.punct '#' hsp ::
              TT.group (TT.ident "allow_until" idsp :: TT.ident s2 sp2 :: tail) igsp :: rest2) =
              locatedOccs rest2 := by
            conv_lhs => rw [locatedOccs.eq_def]
            simp
          rw [hleq] at hp ⊢
          exact hq1 hp
      | punct c2 sp2 =>
        refine ⟨es1, ?_, ?_⟩
        · conv_lhs => rw [walkToks.eq_def]
          simpa using h1
        · intro hp
          have hleq : locatedOccs (TT.punct '#' hsp ::
              TT.group (TT.ident "allow_until" idsp :: TT.punct c2 sp2 :: tail) igsp :: rest2) =
              locatedOccs rest2 := by
            conv_lhs => rw [locatedOccs.eq_def]
            simp
          rw [hleq] at hp ⊢
          exact hq1 hp
      | lit s2 sp2 =>
        refine ⟨es1, ?_, ?_⟩
        · conv_lhs => rw [walkToks.eq_def]
          simpa using h1
        · intro hp
          have hleq : locatedOccs (TT.punct '#' hsp ::
              TT.group (TT.ident "allow_until" idsp :: TT.lit s2 sp2 :: tail) igsp :: rest2) =
              locatedOccs rest2 := by
            conv_lhs => rw [locatedOccs.eq_def]
            simp
          rw [hleq] at hp ⊢
          exact hq1 hp
  | case13 c hsp hc igsp rest2 idName idsp innerRest hnid ih =>
    obtain ⟨es1, h1, hq1⟩ := ih
    obtain rfl : c = '#' := by simpa using hc
    refine ⟨es1, ?_, ?_⟩
    · conv_lhs => rw [walkToks.eq_def]
      simp only [hnid, if_false, Bool.false_eq_true, beq_self_eq_true, if_true, ite_true]
      simpa using h1
    · intro hp
      have hleq : locatedOccs (TT.punct '#' hsp ::
          TT.group (TT.ident idName idsp :: innerRest) igsp :: rest2) = locatedOccs rest2 := by
        conv_lhs => rw [locatedOccs.eq_def]
        rcases innerRest with _ | ⟨t, tail⟩
        · simp
        · cases t <;> simp [hnid]
      rw [hleq] at hp ⊢
      exact hq1 hp
  | case14 c hsp hc inner igsp rest2 hnotident ih =>
    obtain ⟨es1, h1, hq1⟩ := ih
    obtain rfl : c = '#' := by simpa using hc
    rcases inner with _ | ⟨t, tail⟩
    · refine ⟨es1, ?_, ?_⟩
      · conv_lhs => rw [walkToks.eq_def]
        simpa using h1
      · intro hp
        have hleq : locatedOccs (TT.punct '#' hsp :: TT.group [] igsp :: rest2) =
            locatedOccs rest2 := by
          conv_lhs => rw [locatedOccs.eq_def]
          simp
        rw [hleq] at hp ⊢
        exact hq1 hp
    · cases t with
      | ident s2 sp2 => exact absurd rfl (hnotident s2 sp2 tail)
      | group g2 sp2 =>
        refine ⟨es1, ?_, ?_⟩
        · conv_lhs => rw [walkToks.eq_def]
          simpa using h1
        · intro hp
          have hleq : locatedOccs (TT.punct '#' hsp ::
              TT.group (TT.group g2 sp2 :: tail) igsp :: rest2) = locatedOccs rest2 := by
            conv_lhs => rw [locatedOccs.eq_def]
            simp
          rw [hleq] at hp ⊢
          exact hq1 hp
      | punct c2 sp2 =>
        refine ⟨es1, ?_, ?_⟩
        · conv_lhs => rw [walkToks.eq_def]
          simpa using h1
        · intro hp
          have hleq : locatedOccs (TT.punct '#' hsp ::
              TT.group (TT.punct c2 sp2 :: tail) igsp :: rest2) = locatedOccs rest2 := by
            conv_lhs => rw [locatedOccs.eq_def]
            simp
          rw [hleq] at hp ⊢
          exact hq1 hp
      | lit s2 sp2 =>
        refine ⟨es1, ?_, ?_⟩
        · conv_lhs => rw [walkToks.eq_def]
          simpa using h1
        · intro hp
          have hleq : locatedOccs (TT.punct '#' hsp ::
              TT.group (TT.lit s2 sp2 :: tail) igsp :: rest2) = locatedOccs rest2 := by
            conv_lhs => rw [locatedOccs.eq_def]
            simp
          rw [hleq] at hp ⊢
          exact hq1 hp
  | case15 c hsp hc head rest2 hnotgroup ih =>
    obtain ⟨es1, h1, hq1⟩ := ih
    obtain rfl : c = '#' := by simpa using hc
    cases head with
    | group g2 sp2 => exact absurd rfl (hnotgroup g2 sp2)
    | ident s2 sp2 =>
      refine ⟨es1, ?_, ?_⟩
      · conv_lhs => rw [walkToks.eq_def]
        simpa using h1
      · intro hp
        have hleq : locatedOccs (TT.punct '#' hsp :: TT.ident s2 sp2 :: rest2) =
            locatedOccs rest2 := by
          conv_lhs => rw [locatedOccs.eq_def]
          simp
        rw [hleq] at hp ⊢
        exact hq1 hp
    | punct c2 sp2 =>
      refine ⟨es1, ?_, ?_⟩
      · conv_lhs => rw [walkToks.eq_def]
        simpa using h1
      · intro hp
        have hleq : locatedOccs (TT.punct '#' hsp :: TT.punct c2 sp2 :: rest2) =
            locatedOccs rest2 := by
          conv_lhs => rw [locatedOccs.eq_def]
          simp
        rw [hleq] at hp ⊢
        exact hq1 hp
    | lit s2 sp2 =>
      refine ⟨es1, ?_, ?_⟩
      · conv_lhs => rw [walkToks.eq_def]
        simpa using h1
      · intro hp
        have hleq : locatedOccs (TT.punct '#' hsp :: TT.lit s2 sp2 :: rest2) =
            locatedOccs rest2 := by
          conv_lhs => rw [locatedOccs.eq_def]
          simp
        rw [hleq] at hp ⊢
        exact hq1 hp
  | case16 c hsp rest hnc ih =>
    obtain ⟨es1, h1, hq1⟩ := ih
    refine ⟨es1, ?_, ?_⟩
    · conv_lhs => rw [walkToks.eq_def]
      simp only [hnc, if_false, Bool.false_eq_true, ite_false]
      simpa using h1
    · intro hp
      have hleq : locatedOccs (TT.punct c hsp :: rest) = locatedOccs rest := by
        conv_lhs => rw [locatedOccs.eq_def]
        simp [hnc]
      rw [hleq] at hp ⊢
      exact hq1 hp
  | case17 head rest hng hnp ih =>
    obtain ⟨es1, h1, hq1⟩ := ih
    cases head with
    | group g2 sp2 => exact absurd rfl (hng g2 sp2)
    | punct c2 sp2 => exact absurd rfl (hnp c2 sp2)
    | ident s2 sp2 =>
      refine ⟨es1, ?_, ?_⟩
      · conv_lhs => rw [walkToks.eq_def]
        simpa using h1
      · intro hp
        have hleq : locatedOccs (TT.ident s2 sp2 :: rest) = locatedOccs rest := by
          conv_lhs => rw [locatedOccs.eq_def]
        rw [hleq] at hp ⊢
        exact hq1 hp
    | lit s2 sp2 =>
      refine ⟨es1, ?_, ?_⟩
      · conv_lhs => rw [walkToks.eq_def]
        simpa using h1
      · intro hp
        have hleq : locatedOccs (TT.lit s2 sp2 :: rest) = locatedOccs rest := by
          conv_lhs => rw [locatedOccs.eq_def]
        rw [hleq] at hp ⊢
        exact hq1 hp

/-- Helper: the derive entry point on the empty stream produces no events and
the empty output stream. -/
theorem allow_until_derive_nil {Req Ver : Type} (join : Span → Span → Option Span)
    (L : SemverLib Req Ver) (env : Option String) :
    allow_until_derive join L env [] =
      (.ok ([], []) : Except (List (WEvent Req)) (List (WEvent Req) × List TT)) := rfl

/-- Helper: a top-level group whose walk completes contributes its events in
front of the rest of the derive stream's events. -/
theorem allow_until_derive_group {Req Ver : Type} (join : Span → Span → Option Span)
    (L : SemverLib Req Ver) (env : Option String)
    (g : List TT) (gsp : Span) (rest : List TT) (es es2 : List (WEvent Req)) (out : List TT)
    (hg : walkToks join L env g = .ok es)
    (hr : allow_until_derive join L env rest = .ok (es2, out)) :
    allow_until_derive join L env (.group g gsp :: rest) = .ok (es ++ es2, out) := by
  simp only [allow_until_derive, recurse_find_attr, hg, hr]

/-- Counterexample to C1 as stated: in the derive traversal of `c1Stream`, a
parse failure inside a nested group emits its diagnostic and aborts only
that group's sequence; the enclosing group's traversal continues, processes
a later occurrence, and emits a second diagnostic. -/
theorem C1_cex :
    allow_until_derive demoJoin demoL (some "1.0.0") c1Stream =
      .ok ([.parseErr ⟨20, "expected ident", some "valid arguments are `version` and `reason`"⟩,
        .gate ">=1.0.0" none 38
          (.emitted ⟨38, "item not allowed! (version 1.0.0 matches >=1.0.0)", none⟩)], []) ∧
    traceDiags
      [WEvent.parseErr ⟨20, "expected ident", some "valid arguments are `version` and `reason`"⟩,
       WEvent.gate ">=1.0.0" none 38
         (.emitted ⟨38, "item not allowed! (version 1.0.0 matches >=1.0.0)", none⟩)] =
      [⟨20, "expected ident", some "valid arguments are `version` and `reason`"⟩,
       ⟨38, "item not allowed! (version 1.0.0 matches >=1.0.0)", none⟩] := by
  have hs : ttlSize c1Body < 50 := by
    simp [ttlSize, c1Body, badArgs, goodArgs]
  have h := walkFuel_spec demoJoin demoL (some "1.0.0") c1Body 50 hs
  have h2 : walkFuel demoJoin demoL (some "1.0.0") 50 c1Body =
      some (.ok [.parseErr ⟨20, "expected ident", some "valid arguments are `version` and `reason`"⟩,
        .gate ">=1.0.0" none 38
          (.emitted ⟨38, "item not allowed! (version 1.0.0 matches >=1.0.0)", none⟩)]) := by
    rfl
  rw [h] at h2
  have hw := Option.some.inj h2
  constructor
  · exact allow_until_derive_group demoJoin demoL (some "1.0.0") c1Body 39 [] _ _ _ hw
      (allow_until_derive_nil demoJoin demoL (some "1.0.0"))
  · rfl

/-- C1 (amended): when parsing a located occurrence's arguments fails, its
diagnostic is emitted and the remainder of the current group's token
sequence is skipped (whatever follows it), but only that sequence: after a
subgroup's walk returns, the enclosing sequence's walk continues and its
events are appended. -/
theorem C1_abort {Req Ver : Type} (join : Span → Span → Option Span)
    (L : SemverLib Req Ver) (env : Option String) :
    (∀ (hsp igsp idsp asp : Span) (argToks extra rest : List TT) (e : Diagnostic),
      parse_arguments L argToks = .error e →
      walkToks join L env (.punct '#' hsp ::
        .group (.ident "allow_until" idsp :: .group argToks asp :: extra) igsp :: rest) =
        .ok [.parseErr e]) ∧
    (∀ (g : List TT) (gsp : Span) (rest : List TT) (es es2 : List (WEvent Req)),
      walkToks join L env g = .ok es → walkToks join L env rest = .ok es2 →
      walkToks join L env (.group g gsp :: rest) = .ok (es ++ es2)) := by
  constructor
  · intro hsp igsp idsp asp argToks extra rest e hparse
    simp [walkToks, hparse]
  · intro g gsp rest es es2 hg hr
    simp [walkToks, hg, hr]

/-- Witness for the amended C1 at concrete inputs. -/
theorem C1_abort_wit :
    walkToks demoJoin demoL none (.punct '#' 1 ::
        .group (.ident "allow_until" 2 :: .group badArgs 3 :: []) 4 :: [.ident "t" 5]) =
      .ok [.parseErr ⟨20, "expected ident", some "valid arguments are `version` and `reason`"⟩] ∧
    walkToks demoJoin demoL none [.group [] 6] = .ok ([] ++ []) :=
  ⟨(C1_abort demoJoin demoL none).1 1 4 2 3 badArgs [] [.ident "t" 5] _ rfl,
   (C1_abort demoJoin demoL none).2 [] 6 [] [] [] (by simp [walkToks]) (by simp [walkToks])⟩

/-- Counterexample to C2 as stated: `c2Stream` holds one marker-pattern
occurrence (inside a group that directly follows a `#` token) whose
arguments parse, yet the derive traversal processes nothing and emits
nothing. -/
theorem C2_cex :
    allOccs c2Stream = [goodArgs] ∧
    (occRun demoL goodArgs).isSome = true ∧
    allow_until_derive demoJoin demoL (some "1.0.0") c2Stream = .ok ([], []) := by
  refine ⟨by simp [allOccs, c2Stream, c2Toks, goodArgs], by decide, ?_⟩
  have hs : ttlSize c2Toks < 50 := by
    simp [ttlSize, c2Toks, goodArgs]
  have h := walkFuel_spec demoJoin demoL (some "1.0.0") c2Toks 50 hs
  have h2 : walkFuel demoJoin demoL (some "1.0.0") 50 c2Toks = some (.ok []) := by rfl
  rw [h] at h2
  have hw := Option.some.inj h2
  exact allow_until_derive_group demoJoin demoL (some "1.0.0") c2Toks 8 [] _ _ _ hw
    (allow_until_derive_nil demoJoin demoL (some "1.0.0"))

/-- C2 (amended): the Attribute Locator finds and processes exactly the
occurrences of `locatedOccs` — every marker-pattern occurrence at every
nesting depth except those inside a group that itself directly follows a
`#` token (such a group is consumed without recursion): when every located
occurrence's arguments parse and the span joins and current-version parse
succeed, the Version Gate runs once per located occurrence, in traversal
order; and the derive entry point over a single group defers entirely to
the Locator. -/
theorem C2_locates {Req Ver : Type} (join : Span → Span → Option Span)
    (L : SemverLib Req Ver) (env : Option String)
    (hj : ∀ a b, (join a b).isSome = true)
    (hv : ∀ s, env = some s → (L.parseVer s).isSome = true) :
    (∀ toks, (∀ args ∈ locatedOccs toks, (occRun L args).isSome = true) →
      ∃ es, walkToks join L env toks = .ok es ∧
        gateRuns es = (locatedOccs toks).filterMap (occRun L)) ∧
    (∀ (g : List TT) (gsp : Span),
      allow_until_derive join L env [.group g gsp] =
        (walkToks join L env g).map fun es => (es, [])) := by
  constructor
  · intro toks hp
    obtain ⟨es, h1, h2⟩ := walk_master join L env hj hv toks
    exact ⟨es, h1, h2 hp⟩
  · intro g gsp
    cases hw : walkToks join L env g <;>
      simp [allow_until_derive, recurse_find_attr, hw, Except.map]

/-- Witness for the amended C2 on a two-occurrence derive body. -/
theorem C2_locates_wit :
    (∃ es, walkToks demoJoin demoL (some "1.0.0") w2Toks = .ok es ∧
      gateRuns es = (locatedOccs w2Toks).filterMap (occRun demoL)) ∧
    allow_until_derive demoJoin demoL (some "1.0.0") [.group [] 61] =
      (walkToks demoJoin demoL (some "1.0.0") []).map fun es => (es, []) := by
  constructor
  · refine (C2_locates demoJoin demoL (some "1.0.0") (fun a b => rfl) (fun s _ => rfl)).1
      w2Toks ?_
    intro args h
    simp [locatedOccs, w2Toks] at h
    rcases h with rfl | rfl
    · decide
    · decide
  · exact (C2_locates demoJoin demoL (some "1.0.0") (fun a b => rfl) (fun s _ => rfl)).2 [] 61

/-- C9: the Attribute Locator's traversal terminates on every finite token
tree: the fuel-indexed transcription of its loop, given fuel exceeding the
total token count, completes and computes `recurse_find_attr`, which is a
total function of its input group. -/
theorem C9_terminates {Req Ver : Type} (join : Span → Span → Option Span)
    (L : SemverLib Req Ver) (env : Option String) (g : List TT) (fuel : Nat)
    (h : ttlSize g < fuel) :
    walkFuel join L env fuel g = some (recurse_find_attr join L env g) :=
  walkFuel_spec join L env g fuel h

/-- Witness for C9 at a concrete tree and fuel bound. -/
theorem C9_terminates_wit :
    walkFuel demoJoin demoL none 10 [.group [.ident "s" 95] 96] =
      some (recurse_find_attr demoJoin demoL none [.group [.ident "s" 95] 96]) :=
  C9_terminates demoJoin demoL none [.group [.ident "s" 95] 96] 10 (by simp [ttlSize])

/-- C10: at a successfully parsed occurrence the two span joins are
unwrapped: if either join fails, the whole invocation panics at once (no
skipping, no continuation, regardless of what follows); and when every join
succeeds (and the current-version value, if present, parses), the traversal
is total — it never panics. -/
theorem C10_join_panic {Req Ver : Type} (join : Span → Span → Option Span)
    (L : SemverLib Req Ver) (env : Option String) :
    (∀ (hsp igsp idsp asp : Span) (argToks extra rest : List TT) (a : Args Req),
      parse_arguments L argToks = .ok a → join hsp igsp = none →
      walkToks join L env (.punct '#' hsp ::
        .group (.ident "allow_until" idsp :: .group argToks asp :: extra) igsp :: rest) =
        .error []) ∧
    (∀ (hsp igsp idsp asp : Span) (argToks extra rest : List TT) (a : Args Req) (j1 : Span),
      parse_arguments L argToks = .ok a → join hsp igsp = some j1 → join j1 idsp = none →
      walkToks join L env (.punct '#' hsp ::
        .group (.ident "allow_until" idsp :: .group argToks asp :: extra) igsp :: rest) =
        .error []) ∧
    ((∀ a b, (join a b).isSome = true) →
      (∀ s, env = some s → (L.parseVer s).isSome = true) →
      ∀ toks, ∃ es, walkToks join L env toks = .ok es) := by
  refine ⟨?_, ?_, ?_⟩
  · intro hsp igsp idsp asp argToks extra rest a hparse hj1
    simp [walkToks, hparse, hj1]
  · intro hsp igsp idsp asp argToks extra rest a j1 hparse hj1 hj2
    simp [walkToks, hparse, hj1, hj2]
  · intro hj hv toks
    obtain ⟨es, h, _⟩ := walk_master join L env hj hv toks
    exact ⟨es, h⟩

/-- Witness for C10: a failing join panics at a concrete occurrence, and
with the total join the walk of a two-occurrence body completes. -/
theorem C10_join_panic_wit :
    walkToks noJoin demoL (some "1.0.0") (.punct '#' 1 ::
        .group (.ident "allow_until" 2 :: .group goodArgs 3 :: []) 4 :: [.ident "z" 5]) =
      .error [] ∧
    (∃ es, walkToks demoJoin demoL (some "1.0.0") w2Toks = .ok es) :=
  ⟨(C10_join_panic noJoin demoL (some "1.0.0")).1 1 4 2 3 goodArgs [] [.ident "z" 5]
      ⟨">=1.0.0", none⟩ rfl rfl,
   (C10_join_panic demoJoin demoL (some "1.0.0")).2.2 (fun a b => rfl) (fun s _ => rfl) w2Toks⟩

end AllowUntil
